import Mathlib

/-!
Shallow embedding of the biosignal analysis pipeline of `src/data_anal.py`.

Numeric signals are modelled as lists of rationals (exact arithmetic in
place of IEEE doubles); sample indices are naturals.  Fallible code is
modelled with `Option` / explicit result types.  The Butterworth
`filtfilt` front-end is floating-point numerics outside the embedding:
the peak detector and the feature aggregator consume the (already
filtered) signal as an arbitrary input list, exactly as the claims
quantify over it.  The rational operations of Batteries are marked
irreducible, which blocks kernel evaluation; we restore the default
reducibility locally so that concrete runs of the embedded pipeline can
be checked by `decide`.
-/

attribute [local semireducible] Rat.add Rat.mul Rat.inv Rat.sub

set_option maxRecDepth 20000

namespace DataAnal

/-- The fixed sampling rate `EXPECTED_FS = 100.0` (data_anal.py, line 9). -/
def EXPECTED_FS : ℚ := 100

/-- `np.mean` of a list (sum divided by length; `[]` gives `0/0 = 0`). -/
def listMean (x : List ℚ) : ℚ := x.sum / x.length

/-- Population variance, the square of `np.std` (numpy default `ddof = 0`):
mean of the squared deviations from the mean. -/
def popVar (x : List ℚ) : ℚ := ((x.map (fun v => (v - listMean x) ^ 2)).sum) / x.length

/-- `np.min` of a nonempty list (`0` on `[]`, a case numpy rejects). -/
def listMin : List ℚ → ℚ
  | [] => 0
  | a :: l => l.foldl min a

/-- `np.max` of a nonempty list (`0` on `[]`, a case numpy rejects). -/
def listMax : List ℚ → ℚ
  | [] => 0
  | a :: l => l.foldl max a

/-- The synthetic time axis `np.arange(num_samples) / fs`
(data_anal.py, line 39). -/
def timeAxis (n : ℕ) (fs : ℚ) : List ℚ :=
  (List.range n).map (fun i : ℕ => (i : ℚ) / fs)

/-- Result channel of the Timebase Reconstructor, making the spec's
invalid-configuration failure mode expressible so that we can state
whether the code ever signals it. -/
inductive TimebaseResult where
  | ok (axis : List ℚ)
  | invalidConfig
deriving DecidableEq

/-- The timebase reconstruction step of `load_signal_data`
(data_anal.py, lines 36-43): the source timestamps are discarded and a
fresh axis `np.arange(n) / fs` is produced.  The function contains no
check on `fs`; it never takes the `invalidConfig` branch. -/
def reconstructTimebase (n : ℕ) (fs : ℚ) : TimebaseResult :=
  TimebaseResult.ok (timeAxis n fs)

/-- `load_signal_data` (data_anal.py, lines 19-47) with the I/O
environment made explicit: `fileExists` models the `os.path.exists`
test (line 24), and `decoded` models the `pd.read_csv` + column
extraction inside the `try` block -- `none` stands for any exception
raised while reading or decoding, which the bare `except` at line 45
catches.  Both failure paths return `(None, None)`. -/
def load_signal_data (fileExists : Bool) (decoded : Option (List ℚ)) (fs : ℚ) :
    Option (List ℚ) × Option (List ℚ) :=
  if fileExists = false then (none, none)
  else
    match decoded with
    | none => (none, none)
    | some signal => (some (timeAxis signal.length fs), some signal)

/-! ### Peak detector: scipy.signal.find_peaks with height and distance

`find_peaks(filtered, height=mean+0.5*std, distance=fs*0.3)`
(data_anal.py, line 114).  We embed the scipy internals:
`_local_maxima_1d` (plateau-aware local maxima), `_select_by_property`
(height, non-strict `height <= x[peak]`), and
`_select_by_peak_distance` (priority removal: peaks are processed from
the highest downwards, each surviving peak discarding every other
candidate closer than `ceil(distance)` samples).
-/

/-- Absolute difference of two sample indices. -/
def natDist (a b : ℕ) : ℕ := max a b - min a b

/-- Inner plateau scan of scipy `_local_maxima_1d`: starting at `i`,
advance while the value equals `v` and `i < n - 1`.  The loop advances
by one per iteration, so a fuel of `x.length` (the value used by every
caller) can never be exhausted. -/
def plateauEnd (x : List ℚ) (v : ℚ) : ℕ → ℕ → ℕ
  | 0, i => i
  | fuel + 1, i =>
    if i < x.length - 1 ∧ x.getD i 0 = v then plateauEnd x v fuel (i + 1) else i

/-- Outer loop of scipy `_local_maxima_1d`: for `i` in `[1, n-1)`, a
strict rise `x[i-1] < x[i]` followed by a plateau of equal values and a
strict fall marks a maximum, reported at the plateau midpoint
`(left + right) // 2`; the scan resumes after the plateau.  Again the
fuel `x.length` used by `localMaxima` bounds the number of iterations. -/
def localMaximaAux (x : List ℚ) : ℕ → ℕ → List ℕ
  | 0, _ => []
  | fuel + 1, i =>
    if i < x.length - 1 then
      if x.getD (i - 1) 0 < x.getD i 0 then
        if x.getD (plateauEnd x (x.getD i 0) x.length (i + 1)) 0 < x.getD i 0 then
          (i + (plateauEnd x (x.getD i 0) x.length (i + 1) - 1)) / 2 ::
            localMaximaAux x fuel (plateauEnd x (x.getD i 0) x.length (i + 1) + 1)
        else
          localMaximaAux x fuel (i + 1)
      else
        localMaximaAux x fuel (i + 1)
    else []

/-- All local maxima of a signal, as scipy `_local_maxima_1d` finds them. -/
def localMaxima (x : List ℚ) : List ℕ := localMaximaAux x x.length 1

/-- The height test of `find_peaks(..., height=mean+0.5*std)`: scipy
keeps a peak `p` iff `mean + 0.5*std <= x[p]` (non-strict,
`_select_by_property`).  With `d := x[p] - mean` this inequality is
equivalent to `0 <= d` and `var <= 4*d^2`, which avoids the irrational
square root; `heightOK_iff_threshold` below proves the equivalence. -/
def heightOK (x : List ℚ) (p : ℕ) : Bool :=
  decide (0 ≤ x.getD p 0 - listMean x) &&
    decide (popVar x ≤ 4 * (x.getD p 0 - listMean x) ^ 2)

/-- Insert candidate index `j` into a list ordered by decreasing height,
placing `j` before every entry whose height it matches or exceeds. -/
def insertDesc (key : List ℚ) (j : ℕ) : List ℕ → List ℕ
  | [] => [j]
  | k :: ks => if key.getD k 0 ≤ key.getD j 0 then j :: k :: ks else k :: insertDesc key j ks

/-- The processing order of scipy `_select_by_peak_distance`: candidates
sorted by decreasing height (`np.argsort` of the priorities, walked from
the end).  Among equal heights the later candidate comes first, matching
a stable ascending argsort walked backwards; numpy's default quicksort
leaves the tie order unspecified, and none of the theorems below depend
on it. -/
def priorityOrder (key : List ℚ) : List ℕ :=
  (List.range key.length).foldl (fun acc j => insertDesc key j acc) []

/-- One step of scipy `_select_by_peak_distance`: if candidate `j` is
still kept, discard every other candidate strictly closer than `dist`
samples.  (The Cython code scans left and right stopping at the first
candidate `dist` or more away; as the candidate positions are strictly
increasing, that removes exactly the set below.) -/
def selectStep (peaks : List ℕ) (dist : ℕ) (keep : List Bool) (j : ℕ) : List Bool :=
  if keep.getD j false = true then
    (List.range keep.length).map fun k =>
      if k = j then true
      else if natDist (peaks.getD k 0) (peaks.getD j 0) < dist then false
      else keep.getD k false
  else keep

/-- scipy `_select_by_peak_distance`: process candidates from the
highest to the lowest, starting with every candidate kept. -/
def selectByPeakDistance (x : List ℚ) (peaks : List ℕ) (dist : ℕ) : List Bool :=
  (priorityOrder (peaks.map (fun p => x.getD p 0))).foldl
    (selectStep peaks dist) (List.replicate peaks.length true)

/-- `peaks[keep]`: the candidates whose flag survived. -/
def keptPeaks : List ℕ → List Bool → List ℕ
  | [], _ => []
  | _ :: _, [] => []
  | p :: ps, b :: bs => if b then p :: keptPeaks ps bs else keptPeaks ps bs

/-- Invariant of the distance-selection loop: every already-processed
candidate index `j` that is still kept is at least `dist` samples away
from every other kept candidate. -/
def farOK (peaks : List ℕ) (dist : ℕ) (keep : List Bool) (done : List ℕ) : Prop :=
  ∀ j ∈ done, keep.getD j false = true →
    ∀ k, k < keep.length → keep.getD k false = true → k ≠ j →
      dist ≤ natDist (peaks.getD k 0) (peaks.getD j 0)

/-- The refractory distance in samples: scipy ceils the `distance=fs*0.3`
argument to an integer (`_select_by_peak_distance`).  `find_peaks`
rejects a distance below 1 sample; at the pipeline's fs = 100 the
distance is 30 samples, well inside the accepted range. -/
def ecgDistance (fs : ℚ) : ℕ := (⌈(3 : ℚ) / 10 * fs⌉).toNat

/-- The full peak detection of data_anal.py line 114:
`find_peaks(x, height=np.mean(x)+0.5*np.std(x), distance=fs*0.3)`. -/
def ecgPeaks (x : List ℚ) (fs : ℚ) : List ℕ :=
  let cands := (localMaxima x).filter (heightOK x)
  keptPeaks cands (selectByPeakDistance x cands (ecgDistance fs))

/-- Modelled from the spec (for comparison with the code): the strict
height test "amplitude exceeds mean + 0.5 x stdDev", again expressed
without the square root (`0 < d` and `var < 4*d^2`). -/
def specHeightExceeds (x : List ℚ) (p : ℕ) : Bool :=
  decide (0 ≤ x.getD p 0 - listMean x) &&
    decide (popVar x < 4 * (x.getD p 0 - listMean x) ^ 2)

/-- Left-to-right greedy acceptance with a previous-accepted-peak
distance constraint, as described by the spec's Peak Detector algorithm. -/
def greedyAux (dist : ℚ) : List ℕ → Option ℕ → List ℕ
  | [], _ => []
  | p :: ps, none => p :: greedyAux dist ps (some p)
  | p :: ps, some prev =>
    if dist ≤ (p : ℚ) - (prev : ℚ) then p :: greedyAux dist ps (some p)
    else greedyAux dist ps (some prev)

/-- Modelled from the spec (for comparison with the code): "locate local
maxima whose amplitude exceeds threshold = mean + 0.5 x stdDev, and
whose index-distance from the previous accepted peak is >= 0.3 x fs
samples (refractory period, greedy left-to-right acceptance)". -/
def specGreedyPeaks (x : List ℚ) (fs : ℚ) : List ℕ :=
  greedyAux (3 / 10 * fs) ((localMaxima x).filter (specHeightExceeds x)) none

/-! ### Feature aggregator (data_anal.py, lines 132-143) -/

/-- `np.diff(peaks) / fs`: the RR intervals in seconds. -/
def rrIntervals (peaks : List ℕ) (fs : ℚ) : List ℚ :=
  List.zipWith (fun a b : ℕ => ((b : ℚ) - (a : ℚ)) / fs) peaks peaks.tail

/-- `60 / rr_intervals_sec`: the heart-rate series in bpm. -/
def heartRates (rr : List ℚ) : List ℚ := rr.map (fun r => 60 / r)

/-- The cardiac summary printed by `analyze_ecg`. -/
structure ECGFeatures where
  rr : List ℚ
  hr : List ℚ
  meanHR : ℚ
  minHR : ℚ
  maxHR : ℚ
deriving DecidableEq

/-- RR intervals, heart-rate series and its mean/min/max
(data_anal.py, lines 132-137). -/
def ecgFeatures (peaks : List ℕ) (fs : ℚ) : ECGFeatures :=
  let rr := rrIntervals peaks fs
  let hr := heartRates rr
  { rr := rr, hr := hr, meanHR := listMean hr, minHR := listMin hr, maxHR := listMax hr }

/-- `np.std(rr_intervals_sec) * 1000` (data_anal.py, line 138): the
population standard deviation of the RR intervals in seconds, scaled to
milliseconds. -/
noncomputable def sdnnMs (peaks : List ℕ) (fs : ℚ) : ℝ :=
  Real.sqrt ((popVar (rrIntervals peaks fs) : ℚ) : ℝ) * 1000

/-- Modelled from the spec (for comparison with the code): "SDNN =
standard deviation of RRIntervalSeries in milliseconds", i.e. the
population standard deviation of the interval series converted to
milliseconds. -/
noncomputable def sdnnSpecMs (rr : List ℚ) : ℝ :=
  Real.sqrt ((popVar (rr.map (fun r => r * 1000)) : ℚ) : ℝ)

/-- `analyze_ecg` from the peak-detection stage onwards (lines 114-143):
fewer than 3 peaks short-circuits into the insufficient-data result
(the message at line 116 followed by `return`), modelled as `none`; no
heart-rate feature is computed on that path. -/
def analyzeECG (x : List ℚ) (fs : ℚ) : Option ECGFeatures :=
  let peaks := ecgPeaks x fs
  if peaks.length < 3 then none else some (ecgFeatures peaks fs)

/-! ### EEG path: dominant frequency (data_anal.py, lines 98-102) -/

/-- `(freqs > 0.5) & (freqs < 45)` applied to the paired PSD estimate:
the frequency/power pairs inside the open interval (0.5, 45) Hz. -/
def restrictPSD (freqs psd : List ℚ) : List (ℚ × ℚ) :=
  (freqs.zip psd).filter fun fp => decide ((1 : ℚ) / 2 < fp.1) && decide (fp.1 < 45)

/-- One comparison step of `np.argmax`: keep the incumbent unless the
challenger is strictly greater (so the first maximum wins ties). -/
def argmaxStep (q r : ℚ × ℚ) : ℚ × ℚ := if q.2 < r.2 then r else q

/-- `np.argmax` over the paired list, returning the maximising pair
(`none` on the empty list, where numpy raises). -/
def argmaxPair : List (ℚ × ℚ) → Option (ℚ × ℚ)
  | [] => none
  | p :: ps => some (ps.foldl argmaxStep p)

/-- `peak_freq` (data_anal.py, lines 98-99): the frequency of the
highest-power bin inside (0.5, 45) Hz. -/
def dominantFreq (freqs psd : List ℚ) : Option ℚ :=
  (argmaxPair (restrictPSD freqs psd)).map Prod.fst

/-- The Alpha-band annotation `8 <= peak_freq <= 12` (line 101). -/
def alphaDominant (freqs psd : List ℚ) : Bool :=
  match dominantFreq freqs psd with
  | none => false
  | some f => decide ((8 : ℚ) ≤ f) && decide (f ≤ 12)

/-- Everything `analyze_eeg` reports about the spectral analysis: the
dominant frequency (line 100) and the Alpha-band annotation (lines
101-102).  The record has no other field; in particular no
degraded-accuracy flag. -/
structure EEGReport where
  dominant : Option ℚ
  alphaNote : Bool
deriving DecidableEq

/-- The report assembled from a PSD estimate. -/
def eegReport (freqs psd : List ℚ) : EEGReport :=
  { dominant := dominantFreq freqs psd, alphaNote := alphaDominant freqs psd }

/-! ### Welch parameters (data_anal.py, line 83 and scipy internals)

`welch(signal, fs, nperseg=fs*4)`: the PSD is computed over the raw
`signal`, not `filtered_signal`.  The windowed-FFT numerics of Welch's
method are not embedded; we embed the segmentation bookkeeping of
`scipy.signal._spectral_py` (`_triage_segments`, `_spectral_helper`),
which is what the fallback behaviour of the claims is about.
-/

/-- `nperseg = fs*4` as scipy receives it (`int()` truncation, positive
for any positive rate). -/
def eegNperseg (fs : ℚ) : ℕ := (⌊4 * fs⌋).toNat

/-- scipy `_triage_segments`: if `nperseg` exceeds the signal length it
is clamped to the signal length (with a `UserWarning`). -/
def effectiveNperseg (n nperseg : ℕ) : ℕ := if n < nperseg then n else nperseg

/-- The condition under which scipy clamps the segment and emits its
warning: signal shorter than one Welch window. -/
def welchFallback (n nperseg : ℕ) : Bool := decide (n < nperseg)

/-- Default overlap `noverlap = nperseg // 2` of `welch`. -/
def welchNoverlap (nperseg : ℕ) : ℕ := nperseg / 2

/-- Number of averaged segments in `_spectral_helper`: windows start at
`0, step, 2*step, ...` while they fit, `step = nperseg - noverlap`. -/
def welchSegmentCount (n nperseg : ℕ) : ℕ :=
  (n - nperseg) / (nperseg - welchNoverlap nperseg) + 1

/-- The one-sided frequency grid `np.fft.rfftfreq(nperseg, 1/fs)`
returned by `welch`: `k * fs / nperseg` for `k = 0 .. nperseg // 2`. -/
def welchFreqs (fs : ℚ) (nperseg : ℕ) : List ℚ :=
  (List.range (nperseg / 2 + 1)).map fun k : ℕ => (k : ℚ) * fs / (nperseg : ℚ)

/-- The dataflow of `analyze_eeg` around the spectral estimate: the
band-pass filter (lines 75-79, kept abstract as `filterEngine`) feeds
only the plot, while `welch` receives the raw signal with
`nperseg = fs*4` (line 83). -/
structure EEGPipeline where
  filtered : List ℚ
  welchInput : List ℚ
  welchNperseg : ℕ

/-- `analyze_eeg`, restricted to which data reaches the spectral
estimator. -/
def analyzeEEGPipeline (signal : List ℚ) (filterEngine : List ℚ → List ℚ) (fs : ℚ) :
    EEGPipeline :=
  { filtered := filterEngine signal, welchInput := signal, welchNperseg := eegNperseg fs }

/-! ### Orchestrator (data_anal.py, lines 146-167) -/

/-- Python `str.lower()` on the selector the user typed (line 155),
modelled character-wise. -/
def strLower (s : String) : String := String.mk (s.data.map Char.toLower)

/-- What one iteration of `main` did: whether the fresh time axis was
generated (inside `load_signal_data`, line 157 / line 39), which
analysis ran, and which error message was printed. -/
structure MainTrace where
  timebaseReconstructed : Bool
  analyzedEEG : Bool
  analyzedECG : Bool
  invalidType : Bool
  loadFailed : Bool
deriving DecidableEq

/-- One iteration of the `main` loop (lines 155-167).  Note the order
of operations in the source: `load_signal_data` runs at line 157,
before the selector is examined at lines 160-165. -/
def mainStep (fileExists : Bool) (decoded : Option (List ℚ)) (selector : String) :
    MainTrace :=
  let sel := strLower selector
  let res := load_signal_data fileExists decoded EXPECTED_FS
  match res.2 with
  | some _ =>
    if sel = "eeg" then
      { timebaseReconstructed := res.1.isSome, analyzedEEG := true, analyzedECG := false,
        invalidType := false, loadFailed := false }
    else if sel = "ecg" then
      { timebaseReconstructed := res.1.isSome, analyzedEEG := false, analyzedECG := true,
        invalidType := false, loadFailed := false }
    else
      { timebaseReconstructed := res.1.isSome, analyzedEEG := false, analyzedECG := false,
        invalidType := true, loadFailed := false }
  | none =>
    { timebaseReconstructed := false, analyzedEEG := false, analyzedECG := false,
      invalidType := false, loadFailed := true }

/-- The concrete signal used to separate the code's peak selection from
the spec's greedy description: three candidate peaks at indices 2, 17
and 32, the middle one tallest, neighbouring gaps of 15 samples and an
outer gap of exactly 30 samples. -/
def ceSignal : List ℚ :=
  [0, 0, 5] ++ List.replicate 14 0 ++ [9] ++ List.replicate 14 0 ++ [5, 0, 0]

/-- A signal with two tall samples 33 apart, both kept by the detector. -/
def twoPeakSignal : List ℚ :=
  [0, 5, 0] ++ List.replicate 30 0 ++ [0, 5, 0]

/-! ### Supporting lemmas -/

theorem getD_map_range {α : Type} (f : ℕ → α) (n k : ℕ) (d : α) :
    ((List.range n).map f).getD k d = if k < n then f k else d := by
  rcases lt_or_le k n with h | h
  · rw [List.getD_eq_getElem?_getD, List.getElem?_map, List.getElem?_range h]
    simp [h]
  · rw [List.getD_eq_getElem?_getD, List.getElem?_map,
      List.getElem?_eq_none (by simpa using h)]
    simp [Nat.not_lt.mpr h]

theorem load_axis_iff_signal (fileExists : Bool) (decoded : Option (List ℚ)) (fs : ℚ) :
    (load_signal_data fileExists decoded fs).1.isSome =
      (load_signal_data fileExists decoded fs).2.isSome := by
  cases fileExists <;> cases decoded <;> simp [load_signal_data]

/-! ### Claim C4: the timebase reconstructor -/

/-- C4: for all N > 0 and fs > 0, `timeAxis` has length N, entry i is
i / fs, it is strictly increasing, starts at 0, and consecutive
differences are exactly 1 / fs. -/
theorem c4_timebase_reconstructor (n : ℕ) (fs : ℚ) (hn : 0 < n) (hfs : 0 < fs) :
    (timeAxis n fs).length = n ∧
    (∀ i, i < n → (timeAxis n fs).getD i 0 = (i : ℚ) / fs) ∧
    (timeAxis n fs).Pairwise (· < ·) ∧
    (timeAxis n fs).getD 0 0 = 0 ∧
    (∀ i, i + 1 < n →
      (timeAxis n fs).getD (i + 1) 0 - (timeAxis n fs).getD i 0 = 1 / fs) := by
  refine ⟨by simp [timeAxis], ?_, ?_, ?_, ?_⟩
  · intro i hi
    rw [timeAxis, getD_map_range, if_pos hi]
  · rw [timeAxis, List.pairwise_map]
    refine (List.pairwise_lt_range n).imp ?_
    intro a b hab
    have hq : (a : ℚ) < (b : ℚ) := by exact_mod_cast hab
    exact (div_lt_div_iff_of_pos_right hfs).mpr hq
  · rw [timeAxis, getD_map_range, if_pos hn]
    simp
  · intro i hi
    have hi' : i < n := Nat.lt_of_succ_lt hi
    rw [timeAxis, getD_map_range, getD_map_range, if_pos hi, if_pos hi',
      div_sub_div_same]
    push_cast
    ring_nf

/-- Witness for C4 at N = 3, fs = 100. -/
theorem c4_timebase_reconstructor_witness :
    0 < 3 ∧ (0 : ℚ) < 100 ∧ (timeAxis 3 100).length = 3 ∧
      (timeAxis 3 100).getD 1 0 = (1 : ℚ) / 100 :=
  ⟨by norm_num, by norm_num, (c4_timebase_reconstructor 3 100 (by norm_num) (by norm_num)).1,
    (c4_timebase_reconstructor 3 100 (by norm_num) (by norm_num)).2.1 1 (by norm_num)⟩

/-! ### Claim C8: timebase failure modes -/

/-- C8 counterexample: at fs = -1 (so fs ≤ 0) the reconstructor does not
report an invalid-configuration error; it happily returns the axis
[0, -1].  The code of `load_signal_data` contains no check on fs. -/
theorem c8_counterexample :
    (-1 : ℚ) ≤ 0 ∧ reconstructTimebase 2 (-1) = TimebaseResult.ok [0, -1] :=
  ⟨by norm_num, by decide⟩

/-- C8 amended: the reconstructor validates nothing: for every N and
every fs it succeeds (it never returns `invalidConfig`), and for
negative fs the produced axis is strictly decreasing rather than
rejected. -/
theorem c8_timebase_no_validation (n : ℕ) (fs : ℚ) :
    reconstructTimebase n fs ≠ TimebaseResult.invalidConfig ∧
    (fs < 0 → ∀ i, i + 1 < n →
      (timeAxis n fs).getD (i + 1) 0 < (timeAxis n fs).getD i 0) := by
  constructor
  · simp [reconstructTimebase]
  · intro hfs i hi
    have hi' : i < n := Nat.lt_of_succ_lt hi
    rw [timeAxis, getD_map_range, getD_map_range, if_pos hi, if_pos hi']
    refine (div_lt_div_right_of_neg hfs).mpr ?_
    exact_mod_cast Nat.lt_succ_self i

/-- Witness for the amended C8 at N = 2, fs = -1. -/
theorem c8_timebase_no_validation_witness :
    (-1 : ℚ) < 0 ∧ 0 + 1 < 2 ∧
      (timeAxis 2 (-1)).getD (0 + 1) 0 < (timeAxis 2 (-1)).getD 0 0 :=
  ⟨by norm_num, by norm_num,
    (c8_timebase_no_validation 2 (-1)).2 (by norm_num) 0 (by norm_num)⟩

/-! ### Claim C10: soft failure of the loader -/

/-- C10: for every run in which the file is missing or reading/decoding
raises, `load_signal_data` returns `(None, None)` (the model is total,
so no exception escapes), and the orchestrator run performs neither
analysis and takes the load-failure branch. -/
theorem c10_load_failure_soft (fileExists : Bool) (decoded : Option (List ℚ)) (fs : ℚ)
    (selector : String) (h : fileExists = false ∨ decoded = none) :
    load_signal_data fileExists decoded fs = (none, none) ∧
    (mainStep fileExists decoded selector).analyzedEEG = false ∧
    (mainStep fileExists decoded selector).analyzedECG = false ∧
    (mainStep fileExists decoded selector).loadFailed = true := by
  have hload : ∀ fs' : ℚ, load_signal_data fileExists decoded fs' = (none, none) := by
    intro fs'
    rcases h with h | h
    · simp [load_signal_data, h]
    · subst h; cases fileExists <;> simp [load_signal_data]
  refine ⟨hload fs, ?_, ?_, ?_⟩ <;> simp [mainStep, hload]

/-- Witness for C10: a missing file. -/
theorem c10_load_failure_soft_witness :
    load_signal_data false (some [1]) 100 = (none, none) ∧
      (mainStep false (some [1]) "eeg").loadFailed = true :=
  ⟨(c10_load_failure_soft false (some [1]) 100 "eeg" (Or.inl rfl)).1,
    (c10_load_failure_soft false (some [1]) 100 "eeg" (Or.inl rfl)).2.2.2⟩

/-! ### Claim C7: invalid signal-type selector -/

/-- C7 counterexample: with an invalid selector ("xyz") on a
successfully loaded file, `main` reports the invalid-type error *and*
has already reconstructed the timebase: `load_signal_data` runs at line
157, before the selector test at lines 160-165, so partial work is
performed. -/
theorem c7_counterexample :
    (mainStep true (some [1, 2, 3]) "xyz").invalidType = true ∧
    (mainStep true (some [1, 2, 3]) "xyz").timebaseReconstructed = true :=
  ⟨by decide, by decide⟩

/-- C7 amended: a selector that is neither `eeg` nor `ecg` after
lowercasing yields the invalid-configuration message and no analysis,
but the data load -- and with it the timebase reconstruction -- has
already happened whenever the file loads successfully. -/
theorem c7_invalid_selector (fileExists : Bool) (decoded : Option (List ℚ))
    (selector : String) (h1 : strLower selector ≠ "eeg") (h2 : strLower selector ≠ "ecg") :
    (mainStep fileExists decoded selector).analyzedEEG = false ∧
    (mainStep fileExists decoded selector).analyzedECG = false ∧
    ((mainStep fileExists decoded selector).invalidType = true ↔
      (load_signal_data fileExists decoded EXPECTED_FS).2.isSome = true) ∧
    ((mainStep fileExists decoded selector).timebaseReconstructed = true ↔
      (load_signal_data fileExists decoded EXPECTED_FS).1.isSome = true) := by
  have hx := load_axis_iff_signal fileExists decoded EXPECTED_FS
  rcases hres : load_signal_data fileExists decoded EXPECTED_FS with ⟨t, s⟩
  rw [hres] at hx
  cases s <;> cases t <;> simp_all [mainStep, hres, h1, h2]

/-- Witness for the amended C7: selector "xyz" on a loaded file. -/
theorem c7_invalid_selector_witness :
    strLower "xyz" ≠ "eeg" ∧ strLower "xyz" ≠ "ecg" ∧
      (mainStep true (some [1, 2, 3]) "xyz").analyzedEEG = false ∧
      (mainStep true (some [1, 2, 3]) "xyz").analyzedECG = false :=
  ⟨by decide, by decide,
    (c7_invalid_selector true (some [1, 2, 3]) "xyz" (by decide) (by decide)).1,
    (c7_invalid_selector true (some [1, 2, 3]) "xyz" (by decide) (by decide)).2.1⟩

/-! ### Claim C1: the feature aggregator -/

theorem sum_map_mul_right {α : Type} (l : List α) (f : α → ℚ) (c : ℚ) :
    (l.map (fun v => f v * c)).sum = (l.map f).sum * c := by
  induction l with
  | nil => simp
  | cons a t ih => simp [ih, add_mul]

theorem listMean_map_mul (c : ℚ) (l : List ℚ) :
    listMean (l.map (fun v => v * c)) = listMean l * c := by
  have h := sum_map_mul_right l (fun v => v) c
  simp only [List.map_id'] at h
  rw [listMean, listMean, List.length_map, h, mul_div_right_comm]

theorem popVar_map_mul (c : ℚ) (l : List ℚ) :
    popVar (l.map (fun v => v * c)) = c ^ 2 * popVar l := by
  rw [popVar, popVar, List.length_map, listMean_map_mul, List.map_map]
  have h1 : ((fun v => (v - listMean l * c) ^ 2) ∘ fun v => v * c) =
      fun v => (v - listMean l) ^ 2 * c ^ 2 := by
    funext v
    simp only [Function.comp_apply]
    ring
  rw [h1, sum_map_mul_right l (fun v => (v - listMean l) ^ 2) (c ^ 2),
    mul_div_right_comm, mul_comm]

theorem popVar_nonneg (l : List ℚ) : 0 ≤ popVar l := by
  rw [popVar]
  apply div_nonneg
  · apply List.sum_nonneg
    intro a ha
    rcases List.mem_map.mp ha with ⟨v, _, rfl⟩
    positivity
  · positivity

/-- The code's `np.std(rr_sec) * 1000` equals the spec's "standard
deviation of the interval series converted to milliseconds". -/
theorem sdnnMs_eq_spec (peaks : List ℕ) (fs : ℚ) :
    sdnnMs peaks fs = sdnnSpecMs (rrIntervals peaks fs) := by
  rw [sdnnMs, sdnnSpecMs, popVar_map_mul]
  have hcast : (((1000 : ℚ) ^ 2 * popVar (rrIntervals peaks fs) : ℚ) : ℝ) =
      (1000 : ℝ) ^ 2 * ((popVar (rrIntervals peaks fs) : ℚ) : ℝ) := by
    push_cast; ring
  rw [hcast, Real.sqrt_mul (by positivity), Real.sqrt_sq (by norm_num)]
  ring

theorem rrIntervals_length (peaks : List ℕ) (fs : ℚ) (h : 1 ≤ peaks.length) :
    (rrIntervals peaks fs).length + 1 = peaks.length := by
  rw [rrIntervals, List.length_zipWith, List.length_tail]
  omega

theorem rrIntervals_getD (fs : ℚ) :
    ∀ (peaks : List ℕ) (i : ℕ), i + 1 < peaks.length →
      (rrIntervals peaks fs).getD i 0 =
        ((peaks.getD (i + 1) 0 : ℚ) - (peaks.getD i 0 : ℚ)) / fs
  | [], i, hi => by simp at hi
  | [a], i, hi => by simp at hi
  | a :: b :: t, 0, _ => rfl
  | a :: b :: t, i + 1, hi => by
    have h := rrIntervals_getD fs (b :: t) i (by simpa using hi)
    simpa [rrIntervals] using h

theorem rrIntervals_pos (fs : ℚ) (hfs : 0 < fs) :
    ∀ peaks : List ℕ, peaks.Pairwise (· < ·) → ∀ r ∈ rrIntervals peaks fs, 0 < r
  | [], _, r, hr => by simp [rrIntervals] at hr
  | [a], _, r, hr => by simp [rrIntervals] at hr
  | a :: b :: t, hp, r, hr => by
    rcases List.pairwise_cons.mp hp with ⟨hab, hp2⟩
    rw [show rrIntervals (a :: b :: t) fs =
        (((b : ℚ) - (a : ℚ)) / fs) :: rrIntervals (b :: t) fs from rfl,
      List.mem_cons] at hr
    rcases hr with rfl | hr
    · apply div_pos _ hfs
      have hq : (a : ℚ) < (b : ℚ) := by exact_mod_cast hab b (by simp)
      linarith
    · exact rrIntervals_pos fs hfs (b :: t) hp2 r hr

/-- C1: for every strictly increasing PeakSet of length >= 3 and fs > 0,
the feature aggregator produces RR intervals = successive differences /
fs (all positive), the heart-rate series 60 / rr, its mean, min and max,
and an SDNN equal to the population standard deviation of the interval
series in milliseconds; at PeakSet = [100, 200, 300], fs = 100 this
yields rr = [1, 1], hr = [60, 60], mean = min = max = 60 bpm and
SDNN = 0 ms. -/
theorem c1_feature_aggregator :
    (∀ (peaks : List ℕ) (fs : ℚ), peaks.Pairwise (· < ·) → 3 ≤ peaks.length → 0 < fs →
      (ecgFeatures peaks fs).rr.length + 1 = peaks.length ∧
      (∀ i, i + 1 < peaks.length →
        (ecgFeatures peaks fs).rr.getD i 0 =
          ((peaks.getD (i + 1) 0 : ℚ) - (peaks.getD i 0 : ℚ)) / fs) ∧
      (∀ r ∈ (ecgFeatures peaks fs).rr, 0 < r) ∧
      (ecgFeatures peaks fs).hr = (ecgFeatures peaks fs).rr.map (fun r => 60 / r) ∧
      (ecgFeatures peaks fs).meanHR = listMean (ecgFeatures peaks fs).hr ∧
      (ecgFeatures peaks fs).minHR = listMin (ecgFeatures peaks fs).hr ∧
      (ecgFeatures peaks fs).maxHR = listMax (ecgFeatures peaks fs).hr ∧
      sdnnMs peaks fs = sdnnSpecMs (rrIntervals peaks fs)) ∧
    (ecgFeatures [100, 200, 300] 100).rr = [1, 1] ∧
    (ecgFeatures [100, 200, 300] 100).hr = [60, 60] ∧
    (ecgFeatures [100, 200, 300] 100).meanHR = 60 ∧
    (ecgFeatures [100, 200, 300] 100).minHR = 60 ∧
    (ecgFeatures [100, 200, 300] 100).maxHR = 60 ∧
    sdnnMs [100, 200, 300] 100 = 0 := by
  refine ⟨?_, by decide, by decide, by decide, by decide, by decide, ?_⟩
  · intro peaks fs hsort hlen hfs
    exact ⟨rrIntervals_length peaks fs (by omega),
      fun i hi => rrIntervals_getD fs peaks i hi,
      fun r hr => rrIntervals_pos fs hfs peaks hsort r hr,
      rfl, rfl, rfl, rfl, sdnnMs_eq_spec peaks fs⟩
  · have hrr : rrIntervals [100, 200, 300] 100 = [1, 1] := by decide
    have hv : popVar [1, 1] = 0 := by decide
    rw [sdnnMs, hrr, hv]
    simp

/-- Witness for C1 at PeakSet = [100, 200, 300], fs = 100. -/
theorem c1_feature_aggregator_witness :
    List.Pairwise (· < ·) ([100, 200, 300] : List ℕ) ∧
      3 ≤ ([100, 200, 300] : List ℕ).length ∧ (0 : ℚ) < 100 ∧
      (∀ r ∈ (ecgFeatures [100, 200, 300] 100).rr, 0 < r) :=
  ⟨by decide, by decide, by norm_num,
    (c1_feature_aggregator.1 [100, 200, 300] 100 (by decide) (by decide) (by norm_num)).2.2.1⟩

/-! ### Claim C3: fewer than 3 peaks -/

theorem localMaximaAux_replicate (n : ℕ) (c : ℚ) :
    ∀ fuel i, localMaximaAux (List.replicate n c) fuel i = []
  | 0, _ => rfl
  | fuel + 1, i => by
    rw [localMaximaAux]
    by_cases h : i < (List.replicate n c).length - 1
    · rw [if_pos h]
      rw [List.length_replicate] at h
      have hgd : ∀ k, k < n → (List.replicate n c).getD k 0 = c := by
        intro k hk
        rw [List.getD_eq_getElem?_getD, List.getElem?_replicate, if_pos hk]
        rfl
      rw [hgd (i - 1) (by omega), hgd i (by omega), if_neg (lt_irrefl c)]
      exact localMaximaAux_replicate n c fuel (i + 1)
    · rw [if_neg h]

/-- A flat-line signal has no local maxima, hence no detected peaks. -/
theorem ecgPeaks_replicate (n : ℕ) (c fs : ℚ) : ecgPeaks (List.replicate n c) fs = [] := by
  rw [ecgPeaks, localMaxima, localMaximaAux_replicate]
  rfl

/-- C3: whenever the detector finds fewer than 3 peaks, the ECG analysis
returns the insufficient-data result (`none`) without computing any
heart-rate feature (the model is a total function, so no exception); on
a flat-line signal of any length the detector finds no peak at all and
the analysis returns the insufficient-data result. -/
theorem c3_insufficient_peaks :
    (∀ (x : List ℚ) (fs : ℚ), (ecgPeaks x fs).length < 3 → analyzeECG x fs = none) ∧
    (∀ (n : ℕ) (c fs : ℚ),
      ecgPeaks (List.replicate n c) fs = [] ∧ analyzeECG (List.replicate n c) fs = none) := by
  have h1 : ∀ (x : List ℚ) (fs : ℚ), (ecgPeaks x fs).length < 3 → analyzeECG x fs = none := by
    intro x fs h
    simp [analyzeECG, h]
  refine ⟨h1, ?_⟩
  intro n c fs
  have h2 := ecgPeaks_replicate n c fs
  exact ⟨h2, h1 _ _ (by rw [h2]; norm_num)⟩

/-- Witness for C3: a flat-line signal of five samples. -/
theorem c3_insufficient_peaks_witness :
    (ecgPeaks (List.replicate 5 (0 : ℚ)) 100).length < 3 ∧
      analyzeECG (List.replicate 5 (0 : ℚ)) 100 = none :=
  ⟨by decide, c3_insufficient_peaks.1 _ _ (by decide)⟩

/-! ### Claim C5: dominant frequency and the Alpha annotation -/

theorem argmax_foldl_mem : ∀ (l : List (ℚ × ℚ)) (p : ℚ × ℚ), l.foldl argmaxStep p ∈ p :: l
  | [], p => by simp
  | r :: t, p => by
    rw [List.foldl_cons]
    rcases List.mem_cons.mp (argmax_foldl_mem t (argmaxStep p r)) with h | h
    · rw [h]
      by_cases hc : p.2 < r.2 <;> simp [argmaxStep, hc]
    · exact List.mem_cons.mpr (Or.inr (List.mem_cons.mpr (Or.inr h)))

theorem argmax_foldl_ge : ∀ (l : List (ℚ × ℚ)) (p q : ℚ × ℚ), q ∈ p :: l →
    q.2 ≤ (l.foldl argmaxStep p).2
  | [], p, q, hq => by
    rcases List.mem_cons.mp hq with rfl | h
    · simp
    · simp at h
  | r :: t, p, q, hq => by
    rw [List.foldl_cons]
    have hstep : p.2 ≤ (argmaxStep p r).2 ∧ r.2 ≤ (argmaxStep p r).2 := by
      rw [argmaxStep]
      by_cases hc : p.2 < r.2
      · rw [if_pos hc]
        exact ⟨le_of_lt hc, le_refl _⟩
      · rw [if_neg hc]
        exact ⟨le_refl _, le_of_not_lt hc⟩
    have hself : (argmaxStep p r).2 ≤ (t.foldl argmaxStep (argmaxStep p r)).2 :=
      argmax_foldl_ge t (argmaxStep p r) (argmaxStep p r) (by simp)
    rcases List.mem_cons.mp hq with rfl | hq2
    · exact le_trans hstep.1 hself
    · rcases List.mem_cons.mp hq2 with rfl | hq3
      · exact le_trans hstep.2 hself
      · exact argmax_foldl_ge t (argmaxStep p r) q (List.mem_cons.mpr (Or.inr hq3))

/-- C5: when the restriction of the PSD estimate to the open interval
(0.5, 45) Hz is nonempty, the reported dominant frequency is the
frequency of a bin of maximal power inside that interval, and the
Alpha-band annotation holds exactly when it lies in the closed interval
[8, 12] Hz. -/
theorem c5_dominant_frequency (freqs psd : List ℚ) (h : restrictPSD freqs psd ≠ []) :
    ∃ f p, dominantFreq freqs psd = some f ∧ (f, p) ∈ restrictPSD freqs psd ∧
      1 / 2 < f ∧ f < 45 ∧ (∀ q ∈ restrictPSD freqs psd, q.2 ≤ p) ∧
      (alphaDominant freqs psd = true ↔ 8 ≤ f ∧ f ≤ 12) := by
  rcases hr : restrictPSD freqs psd with _ | ⟨r, rs⟩
  · exact absurd hr h
  have hdom : dominantFreq freqs psd = some (rs.foldl argmaxStep r).1 := by
    rw [dominantFreq, hr]
    rfl
  have hmem : rs.foldl argmaxStep r ∈ r :: rs := argmax_foldl_mem rs r
  have hmem2 : rs.foldl argmaxStep r ∈
      (freqs.zip psd).filter
        (fun fp => decide ((1 : ℚ) / 2 < fp.1) && decide (fp.1 < 45)) := by
    have hx : rs.foldl argmaxStep r ∈ restrictPSD freqs psd := by
      rw [hr]
      exact hmem
    exact hx
  have hbounds := (List.mem_filter.mp hmem2).2
  simp only [Bool.and_eq_true, decide_eq_true_eq] at hbounds
  have halpha : alphaDominant freqs psd =
      (decide ((8 : ℚ) ≤ (rs.foldl argmaxStep r).1) &&
        decide ((rs.foldl argmaxStep r).1 ≤ 12)) := by
    simp only [alphaDominant, hdom]
  refine ⟨(rs.foldl argmaxStep r).1, (rs.foldl argmaxStep r).2, hdom, ?_,
    hbounds.1, hbounds.2, ?_, ?_⟩
  · rw [Prod.mk.eta]
    exact hmem
  · intro q hq
    exact argmax_foldl_ge rs r q hq
  · rw [halpha]
    simp

/-- Witness for C5 on the PSD estimate freqs = [1, 10, 20],
psd = [3, 7, 5]. -/
theorem c5_dominant_frequency_witness :
    ∃ f p, dominantFreq [1, 10, 20] [3, 7, 5] = some f ∧
      (f, p) ∈ restrictPSD [1, 10, 20] [3, 7, 5] ∧ 1 / 2 < f ∧ f < 45 ∧
      (∀ q ∈ restrictPSD [1, 10, 20] [3, 7, 5], q.2 ≤ p) ∧
      (alphaDominant [1, 10, 20] [3, 7, 5] = true ↔ 8 ≤ f ∧ f ≤ 12) :=
  c5_dominant_frequency [1, 10, 20] [3, 7, 5] (by decide)

/-! ### Claim C6: Welch configuration and the short-signal fallback -/

/-- C6: the spectral estimate is taken over the raw (unfiltered) signal
with segment length 4 x fs, and a signal shorter than one segment is
processed as a single segment spanning the whole signal (scipy clamps
`nperseg` instead of failing). -/
theorem c6_welch_configuration :
    (∀ (signal : List ℚ) (filterEngine : List ℚ → List ℚ) (fs : ℚ),
      (analyzeEEGPipeline signal filterEngine fs).welchInput = signal ∧
      (analyzeEEGPipeline signal filterEngine fs).welchNperseg = eegNperseg fs) ∧
    (∀ n nperseg : ℕ, 0 < n → n < nperseg →
      welchFallback n nperseg = true ∧
      effectiveNperseg n nperseg = n ∧
      welchSegmentCount n (effectiveNperseg n nperseg) = 1) := by
  refine ⟨fun signal filterEngine fs => ⟨rfl, rfl⟩, ?_⟩
  intro n nperseg hn hlt
  have heff : effectiveNperseg n nperseg = n := if_pos hlt
  refine ⟨by simp [welchFallback, hlt], heff, ?_⟩
  rw [heff, welchSegmentCount, Nat.sub_self, Nat.zero_div]

/-- Witness for C6: a 200-sample signal at fs = 100 (one Welch window
is 400 samples). -/
theorem c6_welch_configuration_witness :
    0 < 200 ∧ 200 < eegNperseg 100 ∧ welchFallback 200 (eegNperseg 100) = true ∧
      welchSegmentCount 200 (effectiveNperseg 200 (eegNperseg 100)) = 1 :=
  ⟨by norm_num, by decide,
    (c6_welch_configuration.2 200 (eegNperseg 100) (by norm_num) (by decide)).1,
    (c6_welch_configuration.2 200 (eegNperseg 100) (by norm_num) (by decide)).2.2⟩

/-! ### Claim C9: the fallback is not visible in the output -/

/-- C9 counterexample: a run that hits the short-signal fallback (6
samples at fs = 2, window 8) and a run that does not (10 samples)
produce literally identical EEG reports, so the degraded-accuracy
condition is not distinguishable in the pipeline's output.  (The only
runtime indication is the `UserWarning` scipy itself emits on stderr,
which is not part of any result record of `analyze_eeg`.) -/
theorem c9_counterexample :
    welchFallback 6 (eegNperseg 2) = true ∧ welchFallback 10 (eegNperseg 2) = false ∧
      eegReport (welchFreqs 2 (effectiveNperseg 6 (eegNperseg 2))) [0, 0, 0, 9] =
        eegReport (welchFreqs 2 (effectiveNperseg 10 (eegNperseg 2))) [0, 0, 0, 0, 9] :=
  ⟨by decide, by decide, by decide⟩

/-- C9 amended: the EEG report carries no information beyond the
dominant frequency -- in particular no degraded-accuracy flag -- so any
two runs with the same dominant frequency are indistinguishable in the
pipeline's output. -/
theorem c9_report_no_flag (freqs1 psd1 freqs2 psd2 : List ℚ)
    (h : dominantFreq freqs1 psd1 = dominantFreq freqs2 psd2) :
    eegReport freqs1 psd1 = eegReport freqs2 psd2 := by
  simp only [eegReport, alphaDominant, h]

/-- Witness for the amended C9. -/
theorem c9_report_no_flag_witness :
    dominantFreq [1, 10] [3, 7] = dominantFreq [2, 10, 11] [1, 9, 2] ∧
      eegReport [1, 10] [3, 7] = eegReport [2, 10, 11] [1, 9, 2] :=
  ⟨by decide, c9_report_no_flag _ _ _ _ (by decide)⟩

/-! ### Claim C2: the peak detector -/

theorem natDist_comm (a b : ℕ) : natDist a b = natDist b a := by
  rw [natDist, natDist, Nat.max_comm, Nat.min_comm]

theorem getD_out_of_range {α : Type} (l : List α) (k : ℕ) (d : α) (h : l.length ≤ k) :
    l.getD k d = d := by
  rw [List.getD_eq_getElem?_getD, List.getElem?_eq_none h]
  rfl

theorem plateauEnd_ge (x : List ℚ) (v : ℚ) :
    ∀ fuel i, i ≤ plateauEnd x v fuel i
  | 0, i => le_refl i
  | fuel + 1, i => by
    simp only [plateauEnd]
    by_cases h : i < x.length - 1 ∧ x.getD i 0 = v
    · rw [if_pos h]
      exact le_trans (Nat.le_succ i) (plateauEnd_ge x v fuel (i + 1))
    · rw [if_neg h]

theorem localMaximaAux_ge (x : List ℚ) :
    ∀ fuel i q, q ∈ localMaximaAux x fuel i → i ≤ q
  | 0, i, q, hq => by simp [localMaximaAux] at hq
  | fuel + 1, i, q, hq => by
    simp only [localMaximaAux] at hq
    by_cases h1 : i < x.length - 1
    · rw [if_pos h1] at hq
      by_cases h2 : x.getD (i - 1) 0 < x.getD i 0
      · rw [if_pos h2] at hq
        by_cases h3 : x.getD (plateauEnd x (x.getD i 0) x.length (i + 1)) 0 < x.getD i 0
        · rw [if_pos h3] at hq
          have hia : i + 1 ≤ plateauEnd x (x.getD i 0) x.length (i + 1) :=
            plateauEnd_ge x (x.getD i 0) x.length (i + 1)
          rcases List.mem_cons.mp hq with rfl | hq2
          · omega
          · have := localMaximaAux_ge x fuel
              (plateauEnd x (x.getD i 0) x.length (i + 1) + 1) q hq2
            omega
        · rw [if_neg h3] at hq
          have := localMaximaAux_ge x fuel (i + 1) q hq
          omega
      · rw [if_neg h2] at hq
        have := localMaximaAux_ge x fuel (i + 1) q hq
        omega
    · rw [if_neg h1] at hq
      simp at hq

theorem localMaximaAux_sorted (x : List ℚ) :
    ∀ fuel i, (localMaximaAux x fuel i).Pairwise (· < ·)
  | 0, _ => List.Pairwise.nil
  | fuel + 1, i => by
    simp only [localMaximaAux]
    by_cases h1 : i < x.length - 1
    · rw [if_pos h1]
      by_cases h2 : x.getD (i - 1) 0 < x.getD i 0
      · rw [if_pos h2]
        by_cases h3 : x.getD (plateauEnd x (x.getD i 0) x.length (i + 1)) 0 < x.getD i 0
        · rw [if_pos h3]
          refine List.pairwise_cons.mpr ⟨?_, localMaximaAux_sorted x fuel _⟩
          intro q hq
          have hge := localMaximaAux_ge x fuel _ q hq
          have hia : i + 1 ≤ plateauEnd x (x.getD i 0) x.length (i + 1) :=
            plateauEnd_ge x (x.getD i 0) x.length (i + 1)
          omega
        · rw [if_neg h3]
          exact localMaximaAux_sorted x fuel (i + 1)
      · rw [if_neg h2]
        exact localMaximaAux_sorted x fuel (i + 1)
    · rw [if_neg h1]
      exact List.Pairwise.nil

theorem keptPeaks_sublist : ∀ (ps : List ℕ) (bs : List Bool), List.Sublist (keptPeaks ps bs) ps
  | [], _ => List.Sublist.refl _
  | _ :: _, [] => List.nil_sublist _
  | p :: ps, b :: bs => by
    simp only [keptPeaks]
    cases b
    · rw [if_neg Bool.false_ne_true]
      exact List.Sublist.cons p (keptPeaks_sublist ps bs)
    · rw [if_pos rfl]
      exact List.Sublist.cons₂ p (keptPeaks_sublist ps bs)

theorem mem_keptPeaks : ∀ (ps : List ℕ) (bs : List Bool) (a : ℕ), a ∈ keptPeaks ps bs →
    ∃ i, i < ps.length ∧ i < bs.length ∧ ps.getD i 0 = a ∧ bs.getD i false = true
  | [], _, a, ha => by simp [keptPeaks] at ha
  | _ :: _, [], a, ha => by simp [keptPeaks] at ha
  | p :: ps, b :: bs, a, ha => by
    simp only [keptPeaks] at ha
    cases b
    · rw [if_neg Bool.false_ne_true] at ha
      rcases mem_keptPeaks ps bs a ha with ⟨i, h1, h2, h3, h4⟩
      exact ⟨i + 1, by simpa using h1, by simpa using h2, h3, h4⟩
    · rw [if_pos rfl] at ha
      rcases List.mem_cons.mp ha with rfl | ha2
      · exact ⟨0, by simp, by simp, rfl, rfl⟩
      · rcases mem_keptPeaks ps bs a ha2 with ⟨i, h1, h2, h3, h4⟩
        exact ⟨i + 1, by simpa using h1, by simpa using h2, h3, h4⟩

theorem selectStep_length (peaks : List ℕ) (dist : ℕ) (keep : List Bool) (j : ℕ) :
    (selectStep peaks dist keep j).length = keep.length := by
  rw [selectStep]
  by_cases h : keep.getD j false = true
  · rw [if_pos h, List.length_map, List.length_range]
  · rw [if_neg h]

theorem selectStep_getD (peaks : List ℕ) (dist : ℕ) (keep : List Bool) (j k : ℕ)
    (hj : keep.getD j false = true) (hk : k < keep.length) :
    (selectStep peaks dist keep j).getD k false =
      if k = j then true
      else if natDist (peaks.getD k 0) (peaks.getD j 0) < dist then false
      else keep.getD k false := by
  rw [selectStep, if_pos hj, getD_map_range, if_pos hk]

theorem selectStep_mono (peaks : List ℕ) (dist : ℕ) (keep : List Bool) (j k : ℕ)
    (h : (selectStep peaks dist keep j).getD k false = true) :
    keep.getD k false = true := by
  by_cases hj : keep.getD j false = true
  · by_cases hk : k < keep.length
    · rw [selectStep_getD peaks dist keep j k hj hk] at h
      by_cases hkj : k = j
      · rw [hkj]
        exact hj
      · rw [if_neg hkj] at h
        by_cases hclose : natDist (peaks.getD k 0) (peaks.getD j 0) < dist
        · rw [if_pos hclose] at h
          exact absurd h (by simp)
        · rw [if_neg hclose] at h
          exact h
    · have hlen : (selectStep peaks dist keep j).length ≤ k := by
        rw [selectStep_length]
        omega
      rw [getD_out_of_range _ _ _ hlen] at h
      exact absurd h (by simp)
  · rw [selectStep, if_neg hj] at h
    exact h

theorem farOK_step (peaks : List ℕ) (dist : ℕ) (keep : List Bool) (done : List ℕ) (j : ℕ)
    (h : farOK peaks dist keep done) :
    farOK peaks dist (selectStep peaks dist keep j) (j :: done) := by
  by_cases hj : keep.getD j false = true
  · intro j2 hj2 hkeepj2 k hk hkeepk hkj2
    have hk0 : k < keep.length := by
      rw [selectStep_length] at hk
      exact hk
    have hkeepk0 : keep.getD k false = true := selectStep_mono _ _ _ _ _ hkeepk
    rcases List.mem_cons.mp hj2 with rfl | hj2done
    · rw [selectStep_getD peaks dist keep j2 k hj hk0, if_neg hkj2] at hkeepk
      by_cases hclose : natDist (peaks.getD k 0) (peaks.getD j2 0) < dist
      · rw [if_pos hclose] at hkeepk
        exact absurd hkeepk (by simp)
      · omega
    · have hkeepj0 : keep.getD j2 false = true := selectStep_mono _ _ _ _ _ hkeepj2
      exact h j2 hj2done hkeepj0 k hk0 hkeepk0 hkj2
  · rw [selectStep, if_neg hj]
    intro j2 hj2 hkeepj2 k hk hkeepk hkj2
    rcases List.mem_cons.mp hj2 with rfl | hj2done
    · exact absurd hkeepj2 hj
    · exact h j2 hj2done hkeepj2 k hk hkeepk hkj2

theorem farOK_subset (peaks : List ℕ) (dist : ℕ) (keep : List Bool) (done done2 : List ℕ)
    (hsub : ∀ a ∈ done2, a ∈ done) (h : farOK peaks dist keep done) :
    farOK peaks dist keep done2 :=
  fun j hj => h j (hsub j hj)

theorem farOK_foldl (peaks : List ℕ) (dist : ℕ) :
    ∀ (order : List ℕ) (keep : List Bool) (done : List ℕ),
      farOK peaks dist keep done →
      farOK peaks dist (order.foldl (selectStep peaks dist) keep) (order ++ done)
  | [], keep, done, h => by simpa using h
  | j :: order, keep, done, h => by
    rw [List.foldl_cons]
    have h2 := farOK_foldl peaks dist order (selectStep peaks dist keep j) (j :: done)
      (farOK_step peaks dist keep done j h)
    refine farOK_subset _ _ _ _ _ ?_ h2
    intro a ha
    simp only [List.mem_append, List.mem_cons] at ha ⊢
    tauto

theorem selectFold_length (peaks : List ℕ) (dist : ℕ) :
    ∀ (order : List ℕ) (keep : List Bool),
      (order.foldl (selectStep peaks dist) keep).length = keep.length
  | [], _ => rfl
  | j :: order, keep => by
    rw [List.foldl_cons, selectFold_length peaks dist order, selectStep_length]

theorem mem_insertDesc (key : List ℚ) (j a : ℕ) :
    ∀ l : List ℕ, a ∈ insertDesc key j l ↔ a = j ∨ a ∈ l
  | [] => by simp [insertDesc]
  | k :: ks => by
    rw [insertDesc]
    by_cases h : key.getD k 0 ≤ key.getD j 0
    · rw [if_pos h]
      simp
    · rw [if_neg h, List.mem_cons, List.mem_cons, mem_insertDesc key j a ks]
      tauto

theorem mem_foldl_insertDesc (key : List ℚ) :
    ∀ (l : List ℕ) (acc : List ℕ) (a : ℕ), a ∈ acc ∨ a ∈ l →
      a ∈ l.foldl (fun acc j => insertDesc key j acc) acc
  | [], acc, a, h => by
    rcases h with h | h
    · exact h
    · simp at h
  | j :: l, acc, a, h => by
    rw [List.foldl_cons]
    apply mem_foldl_insertDesc key l (insertDesc key j acc) a
    rcases h with h | h
    · exact Or.inl ((mem_insertDesc key j a acc).mpr (Or.inr h))
    · rcases List.mem_cons.mp h with rfl | h2
      · exact Or.inl ((mem_insertDesc key a a acc).mpr (Or.inl rfl))
      · exact Or.inr h2

theorem mem_priorityOrder (key : List ℚ) (k : ℕ) (hk : k < key.length) :
    k ∈ priorityOrder key := by
  rw [priorityOrder]
  exact mem_foldl_insertDesc key (List.range key.length) [] k
    (Or.inr (List.mem_range.mpr hk))

/-- C2 counterexample: on `ceSignal` at fs = 100 the code's detector
(scipy `find_peaks`, highest-peak-first selection) returns the single
peak [17], while the spec's greedy left-to-right acceptance returns
[2, 32].  All three candidate local maxima 2, 17, 32 pass the height
threshold; 17 is processed first because it is the tallest and it
discards both neighbours, 15 < 30 samples away. -/
theorem c2_counterexample :
    localMaxima ceSignal = [2, 17, 32] ∧
      ecgPeaks ceSignal 100 = [17] ∧
      specGreedyPeaks ceSignal 100 = [2, 32] :=
  ⟨by decide, by decide, by decide⟩

/-- C2 amended: the detector returns a strictly increasing set of
plateau-midpoint local maxima, each of amplitude at least
mean + 0.5 x std (non-strict), any two of which are at least
ceil(0.3 x fs) samples apart; but the acceptance order is by decreasing
peak height (scipy `_select_by_peak_distance`), not greedy left to
right. -/
theorem c2_peak_detector (x : List ℚ) (fs : ℚ) :
    (ecgPeaks x fs).Pairwise (· < ·) ∧
    (∀ q ∈ ecgPeaks x fs, q ∈ localMaxima x ∧ heightOK x q = true) ∧
    (∀ a ∈ ecgPeaks x fs, ∀ b ∈ ecgPeaks x fs, a ≠ b →
      ecgDistance fs ≤ natDist a b) := by
  have hcands_sorted : ((localMaxima x).filter (heightOK x)).Pairwise (· < ·) :=
    (localMaximaAux_sorted x x.length 1).filter _
  have hpk : ecgPeaks x fs =
      keptPeaks ((localMaxima x).filter (heightOK x))
        (selectByPeakDistance x ((localMaxima x).filter (heightOK x)) (ecgDistance fs)) := rfl
  have hsub := keptPeaks_sublist ((localMaxima x).filter (heightOK x))
    (selectByPeakDistance x ((localMaxima x).filter (heightOK x)) (ecgDistance fs))
  have hkeeplen : (selectByPeakDistance x ((localMaxima x).filter (heightOK x))
      (ecgDistance fs)).length = ((localMaxima x).filter (heightOK x)).length := by
    rw [selectByPeakDistance, selectFold_length, List.length_replicate]
  refine ⟨?_, ?_, ?_⟩
  · rw [hpk]
    exact hcands_sorted.sublist hsub
  · intro q hq
    rw [hpk] at hq
    exact List.mem_filter.mp (hsub.subset hq)
  · intro a ha b hb hab
    rw [hpk] at ha hb
    rcases mem_keptPeaks _ _ a ha with ⟨i, hi1, hi2, hi3, hi4⟩
    rcases mem_keptPeaks _ _ b hb with ⟨j, hj1, hj2, hj3, hj4⟩
    have hij : i ≠ j := by
      intro hcontra
      apply hab
      rw [← hi3, ← hj3, hcontra]
    have hfar : farOK ((localMaxima x).filter (heightOK x)) (ecgDistance fs)
        (selectByPeakDistance x ((localMaxima x).filter (heightOK x)) (ecgDistance fs))
        (priorityOrder (((localMaxima x).filter (heightOK x)).map (fun p => x.getD p 0))
          ++ []) := by
      rw [selectByPeakDistance]
      apply farOK_foldl
      intro j2 hj2
      simp at hj2
    have hiord : i ∈ priorityOrder
        (((localMaxima x).filter (heightOK x)).map (fun p => x.getD p 0)) ++ [] := by
      rw [List.append_nil]
      apply mem_priorityOrder
      rw [List.length_map]
      exact hi1
    have hd := hfar i hiord hi4 j (by rw [hkeeplen]; exact hj1) hj4 (fun h => hij h.symm)
    rw [hj3, hi3, natDist_comm] at hd
    exact hd

/-- Witness for the amended C2 on `twoPeakSignal` at fs = 100: the two
detected peaks 1 and 34 are at least 30 samples apart. -/
theorem c2_peak_detector_witness :
    (1 ∈ ecgPeaks twoPeakSignal 100) ∧ (34 ∈ ecgPeaks twoPeakSignal 100) ∧
      (1 : ℕ) ≠ 34 ∧ ecgDistance 100 ≤ natDist 1 34 :=
  ⟨by decide, by decide, by decide,
    (c2_peak_detector twoPeakSignal 100).2.2 1 (by decide) 34 (by decide) (by decide)⟩

/-- The Boolean height test of the embedding is exactly the non-strict
comparison `mean + std / 2 <= x[p]` that `find_peaks` performs, with
the standard deviation as the real square root of the population
variance. -/
theorem heightOK_iff_threshold (x : List ℚ) (p : ℕ) :
    heightOK x p = true ↔
      ((listMean x : ℚ) : ℝ) + Real.sqrt ((popVar x : ℚ) : ℝ) / 2 ≤
        ((x.getD p 0 : ℚ) : ℝ) := by
  rw [heightOK]
  simp only [Bool.and_eq_true, decide_eq_true_eq]
  have hv0 : (0 : ℝ) ≤ ((popVar x : ℚ) : ℝ) := by exact_mod_cast popVar_nonneg x
  constructor
  · rintro ⟨h1, h2⟩
    have hd : (0 : ℝ) ≤ ((x.getD p 0 : ℚ) : ℝ) - ((listMean x : ℚ) : ℝ) := by
      exact_mod_cast h1
    have h2r : ((popVar x : ℚ) : ℝ) ≤
        4 * (((x.getD p 0 : ℚ) : ℝ) - ((listMean x : ℚ) : ℝ)) ^ 2 := by
      exact_mod_cast h2
    have h4 : ((popVar x : ℚ) : ℝ) ≤
        (2 * (((x.getD p 0 : ℚ) : ℝ) - ((listMean x : ℚ) : ℝ))) ^ 2 := by nlinarith
    have hsq := Real.sqrt_le_sqrt h4
    rw [Real.sqrt_sq (by linarith)] at hsq
    linarith
  · intro h
    have hs0 := Real.sqrt_nonneg ((popVar x : ℚ) : ℝ)
    have hd : (0 : ℝ) ≤ ((x.getD p 0 : ℚ) : ℝ) - ((listMean x : ℚ) : ℝ) := by linarith
    have hsq := Real.sq_sqrt hv0
    constructor
    · exact_mod_cast hd
    · have h2r : ((popVar x : ℚ) : ℝ) ≤
          4 * (((x.getD p 0 : ℚ) : ℝ) - ((listMean x : ℚ) : ℝ)) ^ 2 := by nlinarith
      exact_mod_cast h2r

/-- The strict variant used by the spec-modelled greedy detector:
`mean + std / 2 < x[p]`. -/
theorem specHeightExceeds_iff (x : List ℚ) (p : ℕ) :
    specHeightExceeds x p = true ↔
      ((listMean x : ℚ) : ℝ) + Real.sqrt ((popVar x : ℚ) : ℝ) / 2 <
        ((x.getD p 0 : ℚ) : ℝ) := by
  rw [specHeightExceeds]
  simp only [Bool.and_eq_true, decide_eq_true_eq]
  have hv0 : (0 : ℝ) ≤ ((popVar x : ℚ) : ℝ) := by exact_mod_cast popVar_nonneg x
  constructor
  · rintro ⟨h1, h2⟩
    have hd : (0 : ℝ) ≤ ((x.getD p 0 : ℚ) : ℝ) - ((listMean x : ℚ) : ℝ) := by
      exact_mod_cast h1
    have h2r : ((popVar x : ℚ) : ℝ) <
        4 * (((x.getD p 0 : ℚ) : ℝ) - ((listMean x : ℚ) : ℝ)) ^ 2 := by
      exact_mod_cast h2
    have h4 : ((popVar x : ℚ) : ℝ) <
        (2 * (((x.getD p 0 : ℚ) : ℝ) - ((listMean x : ℚ) : ℝ))) ^ 2 := by nlinarith
    have hsq := Real.sqrt_lt_sqrt hv0 h4
    rw [Real.sqrt_sq (by linarith)] at hsq
    linarith
  · intro h
    have hs0 := Real.sqrt_nonneg ((popVar x : ℚ) : ℝ)
    have hd : (0 : ℝ) ≤ ((x.getD p 0 : ℚ) : ℝ) - ((listMean x : ℚ) : ℝ) := by linarith
    have hsq := Real.sq_sqrt hv0
    constructor
    · exact_mod_cast hd
    · have h2r : ((popVar x : ℚ) : ℝ) <
          4 * (((x.getD p 0 : ℚ) : ℝ) - ((listMean x : ℚ) : ℝ)) ^ 2 := by nlinarith
      exact_mod_cast h2r

end DataAnal
